import Mathlib

/-!
Verification of the chunked-upload coordinator in `backend/aps_service.py`.

The Python code is shallowly embedded: byte strings become `List Nat`,
HTTP responses become records supplied by an `Env` (the mocked remote
store), and every outbound network call is recorded as an `Event` so that
ordering and absence of calls can be stated.  Python's truthiness test on
optional strings (`if not x`) is modelled by `truthyOpt`, and `a or b`
on optional strings by `pyOr`.
-/

namespace Aps

/-- `MIN_PART_SIZE = 5 * 1024 * 1024` from `aps_service.py`. -/
def MIN_PART_SIZE : Nat := 5 * 1024 * 1024

/-- Python truthiness of an optional string: `None` and `""` are falsy. -/
def truthyOpt : Option String → Bool
  | none => false
  | some s => s != ""

/-- Python `a or b` on optional strings (`h.get("ETag") or h.get("etag")`):
falls through to `b` when `a` is `None` or the empty string. -/
def pyOr (a b : Option String) : Option String :=
  match a with
  | some s => if s != "" then some s else b
  | none => b

/-- Python `s.strip(c)` for a single character `c`: removes every leading
and trailing occurrence of `c` (used as `etag.strip` with the quote char). -/
def stripChar (c : Char) (s : String) : String :=
  String.mk (((s.data.dropWhile (fun x => x == c)).reverse.dropWhile
    (fun x => x == c)).reverse)

/-- The double-quote character stripped from ETags (line 185 of the source). -/
def quoteChar : Char := '"'

/-- Partition planning, lines 152-157 of `aps_service.py`:
if `file_size <= MIN_PART_SIZE` then one part of the whole size, else
`ceil(file_size / MIN_PART_SIZE)` parts of `MIN_PART_SIZE` each (the last
read is shorter).  `math.ceil(a / m)` is `(a + m - 1) / m` on naturals.
Returns `(total_parts, part_size)`. -/
def plan (totalSize minPartSize : Nat) : Nat × Nat :=
  if totalSize ≤ minPartSize then (1, totalSize)
  else ((totalSize + minPartSize - 1) / minPartSize, minPartSize)

/-- One PUT response from the store: status, body text, and the two header
lookups `headers.get("ETag")` / `headers.get("etag")`. -/
structure PutResp where
  status : Nat
  body : String
  etagUpper : Option String
  etagLower : Option String
deriving DecidableEq

/-- An entry of the completion payload: `{"part": n, "etag": e}`. -/
structure PartEntry where
  part : Nat
  etag : String
deriving DecidableEq

/-- An outbound network call of the coordinator. -/
inductive Event where
  | signReq (parts firstPart : Nat)
  | putReq (part : Nat) (url : String) (body : List Nat)
  | completeReq (uploadKey : String) (payload : List PartEntry)
deriving DecidableEq

/-- Errors, one constructor per `raise` site of the flow. -/
inductive UploadErr where
  | bucketKeyUnset
  | fileNotFound
  | signFailed (status : Nat) (body : String)
  | protocolMismatch (uploadKey : Option String) (urls : List String)
  | unexpectedEOF (part : Nat)
  | putFailed (part : Nat) (status : Nat) (body : String)
  | missingETag (part : Nat)
  | bucketCreateFailed (status : Nat) (body : String)
  | completeFailed (status : Nat) (body : String)
deriving DecidableEq

/-- A generic HTTP response (status and body text). -/
structure HttpResp where
  status : Nat
  body : String
deriving DecidableEq

/-- The environment of one run: configuration, the local file, and the
mocked responses of the remote store. -/
structure Env where
  bucketKey : Option String
  fileExists : Bool
  fileData : List Nat
  signStatus : Nat
  signBody : String
  uploadKey : Option String
  urls : List String
  put : Nat → PutResp
  completeStatus : Nat
  completeBody : String

/-- `create_bucket_if_needed`, lines 43-64: missing bucket key raises;
statuses 200, 201 and 409 (already exists) succeed returning the status
and response data; anything else raises. -/
def create_bucket_if_needed (bucketKey : Option String) (resp : HttpResp) :
    Except UploadErr (Nat × String) :=
  if truthyOpt bucketKey = false then Except.error UploadErr.bucketKeyUnset
  else if resp.status = 200 ∨ resp.status = 201 ∨ resp.status = 409 then
    Except.ok (resp.status, resp.body)
  else Except.error (UploadErr.bucketCreateFailed resp.status resp.body)

/-- `_complete_signed_upload`, lines 111-136: missing bucket key raises;
statuses 200 and 201 succeed returning the response body (the receipt);
anything else raises. -/
def complete_signed_upload (bucketKey : Option String) (uploadKey : String)
    (payload : List PartEntry) (resp : HttpResp) : Except UploadErr String :=
  if truthyOpt bucketKey = false then Except.error UploadErr.bucketKeyUnset
  else if resp.status = 200 ∨ resp.status = 201 then Except.ok resp.body
  else Except.error (UploadErr.completeFailed resp.status resp.body)

/-- The body of one loop iteration after the chunk was read, lines 175-186:
a PUT whose status is outside {200, 201} raises with the status and body;
a missing (or falsy) ETag header raises `Missing ETag`; otherwise the
ETag is quote-stripped and stored with its part number. -/
def uploadPart (partNumber : Nat) (resp : PutResp) :
    Except UploadErr PartEntry :=
  if resp.status = 200 ∨ resp.status = 201 then
    match pyOr resp.etagUpper resp.etagLower with
    | some raw =>
      if raw != "" then Except.ok ⟨partNumber, stripChar quoteChar raw⟩
      else Except.error (UploadErr.missingETag partNumber)
    | none => Except.error (UploadErr.missingETag partNumber)
  else Except.error (UploadErr.putFailed partNumber resp.status resp.body)

/-- The part-upload loop, lines 168-186.  `k` parts remain, the next has
number `pn`, and `rest` is the unread suffix of the file; each iteration
reads `p` bytes (`f.read(part_size)`), raises on an empty read, PUTs the
chunk to `urls[pn-1]`, and collects the resulting `PartEntry`.  Returns
the collected entries (or the first error) and the PUT events issued. -/
def uploadLoop (put : Nat → PutResp) (urls : List String) (p : Nat) :
    Nat → Nat → List Nat → Except UploadErr (List PartEntry) × List Event
  | 0, _, _ => (Except.ok [], [])
  | Nat.succ k, pn, rest =>
    let chunk := rest.take p
    if chunk.length = 0 then (Except.error (UploadErr.unexpectedEOF pn), [])
    else
      let ev := Event.putReq pn (urls.getD (pn - 1) "") chunk
      match uploadPart pn (put pn) with
      | Except.error e => (Except.error e, [ev])
      | Except.ok entry =>
        match uploadLoop put urls p k (pn + 1) (rest.drop p) with
        | (Except.ok es, evs) => (Except.ok (entry :: es), ev :: evs)
        | (Except.error e, evs) => (Except.error e, ev :: evs)

/-- `upload_file_signed_s3`, lines 139-188, with the fixed constant
`MIN_PART_SIZE` generalised to the parameter `minPartSize` (the spec's
coordinator contract `upload(localObject, objectName, minPartSize)`).
Checks the bucket key and file existence, plans, requests signed URLs
(raising on a non-200 signing response, then on a falsy upload key or a
URL count different from the part count), runs the part loop, and
finalises through `complete_signed_upload`.  Returns the outcome together
with the trace of network calls. -/
def uploadFileWith (minPartSize : Nat) (env : Env) :
    Except UploadErr String × List Event :=
  if truthyOpt env.bucketKey = false then
    (Except.error UploadErr.bucketKeyUnset, [])
  else if env.fileExists = false then
    (Except.error UploadErr.fileNotFound, [])
  else if env.signStatus ≠ 200 then
    (Except.error (UploadErr.signFailed env.signStatus env.signBody),
      [Event.signReq (plan env.fileData.length minPartSize).1 1])
  else if truthyOpt env.uploadKey = false ∨
      env.urls.length ≠ (plan env.fileData.length minPartSize).1 then
    (Except.error (UploadErr.protocolMismatch env.uploadKey env.urls),
      [Event.signReq (plan env.fileData.length minPartSize).1 1])
  else
    match uploadLoop env.put env.urls (plan env.fileData.length minPartSize).2
        (plan env.fileData.length minPartSize).1 1 env.fileData with
    | (Except.error e, evs) =>
      (Except.error e,
        Event.signReq (plan env.fileData.length minPartSize).1 1 :: evs)
    | (Except.ok payload, evs) =>
      match complete_signed_upload env.bucketKey (env.uploadKey.getD "")
          payload ⟨env.completeStatus, env.completeBody⟩ with
      | Except.ok receipt =>
        (Except.ok receipt,
          Event.signReq (plan env.fileData.length minPartSize).1 1 ::
            (evs ++ [Event.completeReq (env.uploadKey.getD "") payload]))
      | Except.error e =>
        (Except.error e,
          Event.signReq (plan env.fileData.length minPartSize).1 1 ::
            (evs ++ [Event.completeReq (env.uploadKey.getD "") payload]))

/-- `upload_file_signed_s3` exactly as in the source, with the constant. -/
def uploadFile (env : Env) : Except UploadErr String × List Event :=
  uploadFileWith MIN_PART_SIZE env

/-- The sequence of chunks the loop reads: `k` successive `p`-byte reads.
The lengths of these chunks are the part sizes of the plan. -/
def partChunks (p : Nat) : Nat → List Nat → List (List Nat)
  | 0, _ => []
  | Nat.succ k, data => data.take p :: partChunks p k (data.drop p)

/-- The PUT events a fully successful loop issues, in iteration order. -/
def expectedPuts (urls : List String) (p : Nat) :
    Nat → Nat → List Nat → List Event
  | 0, _, _ => []
  | Nat.succ k, pn, rest =>
    Event.putReq pn (urls.getD (pn - 1) "") (rest.take p) ::
      expectedPuts urls p k (pn + 1) (rest.drop p)

/-- The part number a part-stage error reports, if any. -/
def partErrPart : UploadErr → Option Nat
  | UploadErr.unexpectedEOF j => some j
  | UploadErr.putFailed j _ _ => some j
  | UploadErr.missingETag j => some j
  | _ => none

/-- Whether an event is a call to the completion endpoint. -/
def isCompleteEvent : Event → Bool
  | Event.completeReq _ _ => true
  | _ => false

/-! ### Lemmas about the chunk sequence -/

theorem partChunks_length (p : Nat) :
    ∀ (k : Nat) (data : List Nat), (partChunks p k data).length = k := by
  intro k
  induction k with
  | zero => intro data; rfl
  | succ k ih => intro data; simp [partChunks, ih]

theorem partChunks_getElem? (p : Nat) :
    ∀ (k i : Nat) (data : List Nat), i < k →
      (partChunks p k data)[i]? = some ((data.drop (i * p)).take p) := by
  intro k
  induction k with
  | zero => intro i data h; omega
  | succ k ih =>
    intro i data h
    match i with
    | 0 => simp [partChunks]
    | Nat.succ i =>
      have hik : i < k := by omega
      simp only [partChunks, List.getElem?_cons_succ]
      rw [ih i (data.drop p) hik, List.drop_drop]
      have harith : p + i * p = (i + 1) * p := by
        rw [Nat.succ_mul]; omega
      rw [harith]

theorem partChunks_sum (p : Nat) :
    ∀ (k : Nat) (data : List Nat),
      ((partChunks p k data).map List.length).sum = min (k * p) data.length := by
  intro k
  induction k with
  | zero => intro data; simp [partChunks]
  | succ k ih =>
    intro data
    simp only [partChunks, List.map_cons, List.sum_cons, ih,
      List.length_take, List.length_drop]
    have harith : (k + 1) * p = k * p + p := by rw [Nat.succ_mul]
    rw [harith]
    generalize k * p = t
    generalize data.length = L
    omega

/-- Ceiling-division bounds: with `q = (total + m - 1) / m` (the natural
number form of `math.ceil(total / m)`), `(q - 1) * m < total ≤ q * m`. -/
theorem ceilDiv_bounds (total m : Nat) (hm : 0 < m) (h : m < total) :
    total ≤ ((total + m - 1) / m) * m ∧
      (((total + m - 1) / m) - 1) * m < total := by
  have hdm := Nat.div_add_mod (total + m - 1) m
  have hr := Nat.mod_lt (total + m - 1) hm
  have h2 : (((total + m - 1) / m) - 1) * m = ((total + m - 1) / m) * m - m := by
    rw [Nat.sub_mul, one_mul]
  have h1 : ((total + m - 1) / m) * m = m * ((total + m - 1) / m) :=
    Nat.mul_comm _ _
  rw [h2, h1]
  generalize m * ((total + m - 1) / m) = S at hdm ⊢
  omega

/-- The partition property claimed for the planner: the branch values of
`plan`, the ceiling characterisation `(count - 1) * p < total ≤ count * p`,
and the shape of the part sizes read by the loop (all full except a final
part in `(0, m]`, summing to the file length). -/
def planPartitionProperty (data : List Nat) (m count p : Nat) : Prop :=
  (data.length ≤ m → count = 1 ∧ p = data.length) ∧
  (m < data.length → count = (data.length + m - 1) / m ∧ p = m) ∧
  (count - 1) * p < data.length ∧
  data.length ≤ count * p ∧
  ((partChunks p count data).map List.length).length = count ∧
  (∀ i, i + 1 < count →
    ((partChunks p count data).map List.length)[i]? = some p) ∧
  ((partChunks p count data).map List.length)[count - 1]? =
    some (data.length - (count - 1) * p) ∧
  0 < data.length - (count - 1) * p ∧
  data.length - (count - 1) * p ≤ m ∧
  ((partChunks p count data).map List.length).sum = data.length

/-- C1: for a file of positive length and a positive minimum part size,
the planning step of `upload_file_signed_s3` yields one part of the whole
size when `total_size <= min_part_size` and otherwise
`ceil(total_size / min_part_size)` parts of size `min_part_size`; every
part except the last has exactly `part_size` bytes, the last part's size
lies in `(0, min_part_size]`, and the part sizes sum to `total_size`. -/
theorem C1_planner_partition (data : List Nat) (m count p : Nat)
    (hd : 0 < data.length) (hm : 0 < m)
    (hplan : plan data.length m = (count, p)) :
    planPartitionProperty data m count p := by
  unfold planPartitionProperty
  unfold plan at hplan
  by_cases hle : data.length ≤ m
  · rw [if_pos hle] at hplan
    cases hplan
    refine ⟨fun _ => ⟨rfl, rfl⟩, fun hlt => absurd hlt (by omega), ?_, ?_, ?_, ?_, ?_, ?_, ?_, ?_⟩
    · simpa using hd
    · simp
    · simp [partChunks_length]
    · intro i hi; omega
    · rw [List.getElem?_map, partChunks_getElem? _ _ 0 data (by omega)]
      simp
    · simpa using hd
    · simpa using hle
    · rw [partChunks_sum]; simp
  · have hlt : m < data.length := by omega
    rw [if_neg hle] at hplan
    cases hplan
    have hbounds := ceilDiv_bounds data.length m hm hlt
    obtain ⟨hub, hlb⟩ := hbounds
    have hq0 : 0 < (data.length + m - 1) / m := by
      rcases Nat.eq_zero_or_pos ((data.length + m - 1) / m) with h0 | h0
      · rw [h0, Nat.zero_mul] at hub; omega
      · exact h0
    have hqm : ((data.length + m - 1) / m - 1) * m + m =
        ((data.length + m - 1) / m) * m := by
      rw [Nat.sub_mul, one_mul]
      have hle2 : m ≤ ((data.length + m - 1) / m) * m :=
        Nat.le_mul_of_pos_left m hq0
      omega
    refine ⟨fun h => absurd h (by omega), fun _ => ⟨rfl, rfl⟩, hlb, hub, ?_, ?_, ?_, ?_, ?_, ?_⟩
    · simp [partChunks_length]
    · intro i hi
      rw [List.getElem?_map, partChunks_getElem? _ _ i data (by omega)]
      have hmono := Nat.mul_le_mul_right m
        (show i + 1 ≤ (data.length + m - 1) / m - 1 by omega)
      have hlt2 : (i + 1) * m < data.length := lt_of_le_of_lt hmono hlb
      rw [Nat.succ_mul] at hlt2
      simp only [Option.map_some, Option.map_some', List.length_take, List.length_drop, Option.some.injEq]
      generalize i * m = t at hlt2 ⊢
      omega
    · rw [List.getElem?_map, partChunks_getElem? _ _ _ data (by omega)]
      simp only [Option.map_some, Option.map_some', List.length_take, List.length_drop, Option.some.injEq]
      generalize hA : ((data.length + m - 1) / m - 1) * m = A at hqm hlb
      generalize ((data.length + m - 1) / m) * m = B at hqm hub
      omega
    · generalize ((data.length + m - 1) / m - 1) * m = A at hlb
      omega
    · generalize hA : ((data.length + m - 1) / m - 1) * m = A at hqm hlb
      generalize ((data.length + m - 1) / m) * m = B at hqm hub
      omega
    · rw [partChunks_sum]
      exact min_eq_right hub

/-- C1 witness: a 12-byte file with a 5-byte minimum part size. -/
theorem C1_planner_partition_witness :
    0 < (List.range 12).length ∧ 0 < 5 ∧
      plan (List.range 12).length 5 = (3, 5) ∧
      planPartitionProperty (List.range 12) 5 3 5 :=
  ⟨by decide, by decide, by decide,
    C1_planner_partition (List.range 12) 5 3 5 (by decide) (by decide)
      (by decide)⟩

/-! ### Lemmas about the part-upload loop -/

theorem uploadPart_error_part (pn : Nat) (resp : PutResp) (e : UploadErr)
    (h : uploadPart pn resp = Except.error e) : partErrPart e = some pn := by
  unfold uploadPart at h
  by_cases hs : resp.status = 200 ∨ resp.status = 201
  · rw [if_pos hs] at h
    rcases hpy : pyOr resp.etagUpper resp.etagLower with _ | raw <;>
      rw [hpy] at h <;> dsimp only at h
    · cases h; rfl
    · by_cases hr : (raw != "") = true
      · rw [if_pos hr] at h; cases h
      · rw [if_neg hr] at h; cases h; rfl
  · rw [if_neg hs] at h; cases h; rfl

theorem uploadPart_ok_part (pn : Nat) (resp : PutResp) (entry : PartEntry)
    (h : uploadPart pn resp = Except.ok entry) : entry.part = pn := by
  unfold uploadPart at h
  by_cases hs : resp.status = 200 ∨ resp.status = 201
  · rw [if_pos hs] at h
    rcases hpy : pyOr resp.etagUpper resp.etagLower with _ | raw <;>
      rw [hpy] at h <;> dsimp only at h
    · cases h
    · by_cases hr : (raw != "") = true
      · rw [if_pos hr] at h; cases h; rfl
      · rw [if_neg hr] at h; cases h
  · rw [if_neg hs] at h; cases h

theorem uploadLoop_ok (put : Nat → PutResp) (urls : List String) (p : Nat) :
    ∀ (k pn : Nat) (rest : List Nat) (es : List PartEntry) (evs : List Event),
      uploadLoop put urls p k pn rest = (Except.ok es, evs) →
      es.map PartEntry.part = List.range' pn k ∧
      evs = expectedPuts urls p k pn rest ∧
      ∀ en ∈ es, uploadPart en.part (put en.part) = Except.ok en := by
  intro k
  induction k with
  | zero =>
    intro pn rest es evs h
    rw [uploadLoop] at h
    cases h
    exact ⟨rfl, rfl, by intro en hen; cases hen⟩
  | succ k ih =>
    intro pn rest es evs h
    rw [uploadLoop] at h
    by_cases hc : (rest.take p).length = 0
    · rw [if_pos hc] at h
      cases h
    · rw [if_neg hc] at h
      rcases hup : uploadPart pn (put pn) with eup | entry <;> rw [hup] at h
      · cases h
      · rcases hrec : uploadLoop put urls p k (pn + 1) (rest.drop p) with
          ⟨res2, evs2⟩
        rw [hrec] at h
        rcases res2 with e2 | es2
        · cases h
        · cases h
          obtain ⟨hih1, hih2, hih3⟩ := ih (pn + 1) (rest.drop p) es2 evs2 hrec
          have hent := uploadPart_ok_part pn (put pn) entry hup
          refine ⟨?_, ?_, ?_⟩
          · rw [List.range'_succ]
            simp [hent, hih1]
          · rw [expectedPuts, hih2]
          · intro en hen
            rcases List.mem_cons.mp hen with hen | hen
            · rw [hen, hent]
              exact hup
            · exact hih3 en hen

theorem uploadLoop_error (put : Nat → PutResp) (urls : List String) (p : Nat) :
    ∀ (k pn : Nat) (rest : List Nat) (e : UploadErr) (evs : List Event),
      uploadLoop put urls p k pn rest = (Except.error e, evs) →
      ∃ j, pn ≤ j ∧ j < pn + k ∧ partErrPart e = some j ∧
        (∀ ev ∈ evs, isCompleteEvent ev = false) ∧
        (∀ q u b, Event.putReq q u b ∈ evs → pn ≤ q ∧ q ≤ j) := by
  intro k
  induction k with
  | zero =>
    intro pn rest e evs h
    rw [uploadLoop] at h
    cases h
  | succ k ih =>
    intro pn rest e evs h
    rw [uploadLoop] at h
    by_cases hc : (rest.take p).length = 0
    · rw [if_pos hc] at h
      cases h
      refine ⟨pn, le_refl pn, by omega, rfl, ?_, ?_⟩
      · intro ev hev; cases hev
      · intro q u b hb; cases hb
    · rw [if_neg hc] at h
      rcases hup : uploadPart pn (put pn) with eup | entry <;> rw [hup] at h
      · cases h
        refine ⟨pn, le_refl pn, by omega,
          uploadPart_error_part pn (put pn) e hup, ?_, ?_⟩
        · intro ev hev
          rcases List.mem_cons.mp hev with hev | hev
          · rw [hev]; rfl
          · cases hev
        · intro q u b hb
          rcases List.mem_cons.mp hb with hb | hb
          · cases hb; omega
          · cases hb
      · rcases hrec : uploadLoop put urls p k (pn + 1) (rest.drop p) with
          ⟨res2, evs2⟩
        rw [hrec] at h
        rcases res2 with e2 | es2
        · cases h
          obtain ⟨j, hj1, hj2, hj3, hj4, hj5⟩ :=
            ih (pn + 1) (rest.drop p) e evs2 hrec
          refine ⟨j, by omega, by omega, hj3, ?_, ?_⟩
          · intro ev hev
            rcases List.mem_cons.mp hev with hev | hev
            · rw [hev]; rfl
            · exact hj4 ev hev
          · intro q u b hb
            rcases List.mem_cons.mp hb with hb | hb
            · cases hb; omega
            · have := hj5 q u b hb
              omega
        · cases h

theorem uploadPart_ok_etag (pn : Nat) (resp : PutResp) (entry : PartEntry)
    (h : uploadPart pn resp = Except.ok entry) :
    ∃ raw, pyOr resp.etagUpper resp.etagLower = some raw ∧ raw ≠ "" ∧
      entry.etag = stripChar quoteChar raw := by
  unfold uploadPart at h
  by_cases hs : resp.status = 200 ∨ resp.status = 201
  · rw [if_pos hs] at h
    rcases hpy : pyOr resp.etagUpper resp.etagLower with _ | raw <;>
      rw [hpy] at h <;> dsimp only at h
    · cases h
    · by_cases hr : (raw != "") = true
      · rw [if_pos hr] at h
        cases h
        exact ⟨raw, rfl, by simpa using hr, rfl⟩
      · rw [if_neg hr] at h; cases h
  · rw [if_neg hs] at h; cases h

theorem expectedPuts_length (urls : List String) (p : Nat) :
    ∀ (k pn : Nat) (rest : List Nat),
      (expectedPuts urls p k pn rest).length = k := by
  intro k
  induction k with
  | zero => intro pn rest; rfl
  | succ k ih => intro pn rest; simp [expectedPuts, ih]

theorem expectedPuts_getElem? (urls : List String) (p : Nat) :
    ∀ (k i pn : Nat) (rest : List Nat), i < k →
      (expectedPuts urls p k pn rest)[i]? =
        some (Event.putReq (pn + i) (urls.getD (pn + i - 1) "")
          ((rest.drop (i * p)).take p)) := by
  intro k
  induction k with
  | zero => intro i pn rest h; omega
  | succ k ih =>
    intro i pn rest h
    match i with
    | 0 => simp [expectedPuts]
    | Nat.succ i =>
      have hik : i < k := by omega
      rw [expectedPuts, List.getElem?_cons_succ,
        ih i (pn + 1) (rest.drop p) hik, List.drop_drop]
      have e1 : pn + 1 + i = pn + (i + 1) := by omega
      have e2 : p + i * p = (i + 1) * p := by
        rw [Nat.succ_mul, Nat.add_comm]
      rw [e1, e2]

theorem expectedPuts_no_complete (urls : List String) (p : Nat) :
    ∀ (k pn : Nat) (rest : List Nat) (ev : Event),
      ev ∈ expectedPuts urls p k pn rest → isCompleteEvent ev = false := by
  intro k
  induction k with
  | zero => intro pn rest ev h; cases h
  | succ k ih =>
    intro pn rest ev h
    rcases List.mem_cons.mp h with h | h
    · rw [h]; rfl
    · exact ih (pn + 1) (rest.drop p) ev h

theorem expectedPuts_mem_putReq (urls : List String) (p : Nat) :
    ∀ (k pn : Nat) (rest : List Nat) (ev : Event),
      ev ∈ expectedPuts urls p k pn rest →
      ∃ q u b, ev = Event.putReq q u b ∧ pn ≤ q ∧ q < pn + k := by
  intro k
  induction k with
  | zero => intro pn rest ev h; cases h
  | succ k ih =>
    intro pn rest ev h
    rcases List.mem_cons.mp h with h | h
    · exact ⟨pn, _, _, h, le_refl pn, by omega⟩
    · obtain ⟨q, u, b, hev, hq1, hq2⟩ := ih (pn + 1) (rest.drop p) ev h
      exact ⟨q, u, b, hev, by omega, by omega⟩

/-! ### Concrete environments used by witnesses and counterexamples -/

/-- A 12-byte file uploaded with `min_part_size = 5` against a store that
answers every request successfully (ETag returned quoted). -/
def okEnv : Env :=
  ⟨some "bucket", true, List.range 12, 200, "", some "key",
    ["u1", "u2", "u3"], fun _ => ⟨200, "", some "\"e\"", none⟩,
    200, "receipt"⟩

/-- Like `okEnv` but the PUT of part 2 fails with status 500. -/
def fail2Env : Env :=
  ⟨some "bucket", true, List.range 12, 200, "", some "key",
    ["u1", "u2", "u3"],
    fun n => if n = 2 then ⟨500, "boom", none, none⟩
      else ⟨200, "", some "\"e\"", none⟩,
    200, "receipt"⟩

/-- Like `okEnv` but the store returns only 2 signed URLs for 3 parts. -/
def mismatchEnv : Env :=
  ⟨some "bucket", true, List.range 12, 200, "", some "key",
    ["u1", "u2"], fun _ => ⟨200, "", some "\"e\"", none⟩, 200, "receipt"⟩

/-- An empty local file; the store itself behaves perfectly. -/
def emptyFileEnv : Env :=
  ⟨some "bucket", true, [], 200, "", some "key", ["u1"],
    fun _ => ⟨200, "", some "\"e\"", none⟩, 200, "receipt"⟩

/-- No bucket key configured. -/
def noKeyEnv : Env :=
  ⟨none, true, [0], 200, "", some "key", ["u1"],
    fun _ => ⟨200, "", some "\"e\"", none⟩, 200, "receipt"⟩

/-- Bucket key configured but the local file does not exist. -/
def noFileEnv : Env :=
  ⟨some "bucket", false, [0], 200, "", some "key", ["u1"],
    fun _ => ⟨200, "", some "\"e\"", none⟩, 200, "receipt"⟩

/-- The trace of the fully successful 12-byte upload of `okEnv`. -/
def okTrace : List Event :=
  [Event.signReq 3 1,
    Event.putReq 1 "u1" [0, 1, 2, 3, 4],
    Event.putReq 2 "u2" [5, 6, 7, 8, 9],
    Event.putReq 3 "u3" [10, 11],
    Event.completeReq "key" [⟨1, "e"⟩, ⟨2, "e"⟩, ⟨3, "e"⟩]]

/-! ### Claims -/

/-- C10: when the bucket key configuration is unset, or the local file
does not exist, `upload_file_signed_s3` raises before any network request
(the event trace is empty) and independently of the file contents and of
every store response, so the validation failure has no side effects. -/
theorem C10_early_validation (m : Nat) (env : Env) :
    (truthyOpt env.bucketKey = false →
      uploadFileWith m env = (Except.error UploadErr.bucketKeyUnset, [])) ∧
    (truthyOpt env.bucketKey = true → env.fileExists = false →
      uploadFileWith m env = (Except.error UploadErr.fileNotFound, [])) := by
  constructor
  · intro hk
    unfold uploadFileWith
    rw [if_pos hk]
  · intro hk hf
    unfold uploadFileWith
    rw [if_neg (by rw [hk]; simp), if_pos hf]

/-- C10 witness: a missing bucket key and a missing file, concretely. -/
theorem C10_early_validation_witness :
    uploadFileWith 5 noKeyEnv = (Except.error UploadErr.bucketKeyUnset, []) ∧
    uploadFileWith 5 noFileEnv = (Except.error UploadErr.fileNotFound, []) :=
  ⟨(C10_early_validation 5 noKeyEnv).1 (by decide),
    (C10_early_validation 5 noFileEnv).2 (by decide) (by decide)⟩

/-- C4: when the signing response carries a falsy upload key or a URL
count different from the planned part count, the coordinator fails hard
with the protocol-mismatch error and the trace holds only the signing
request — zero part uploads were issued and the URL list was not
truncated or padded. -/
theorem C4_protocol_mismatch (m : Nat) (env : Env)
    (hk : truthyOpt env.bucketKey = true) (hf : env.fileExists = true)
    (hs : env.signStatus = 200)
    (hpm : truthyOpt env.uploadKey = false ∨
      env.urls.length ≠ (plan env.fileData.length m).1) :
    uploadFileWith m env =
      (Except.error (UploadErr.protocolMismatch env.uploadKey env.urls),
        [Event.signReq (plan env.fileData.length m).1 1]) := by
  unfold uploadFileWith
  rw [if_neg (by rw [hk]; simp), if_neg (by rw [hf]; simp),
    if_neg (by rw [hs]; simp), if_pos hpm]

/-- C4 witness: a 3-part request answered with only 2 signed URLs. -/
theorem C4_protocol_mismatch_witness :
    uploadFileWith 5 mismatchEnv =
      (Except.error
        (UploadErr.protocolMismatch (some "key") ["u1", "u2"]),
        [Event.signReq 3 1]) :=
  C4_protocol_mismatch 5 mismatchEnv (by decide) (by decide) (by decide)
    (Or.inr (by decide))

/-- C5 counterexample: for the empty file the claim fails on the code.
Planning does not reject `total_size = 0`: `plan` returns a 1-part plan
of part size 0, and the coordinator issues the signing request (the
trace contains it) before failing with the unexpected-EOF error of the
read loop — not with any planning-stage invalid-input error. -/
theorem C5_counterexample :
    plan 0 MIN_PART_SIZE = (1, 0) ∧
    uploadFile emptyFileEnv =
      (Except.error (UploadErr.unexpectedEOF 1), [Event.signReq 1 1]) :=
  ⟨by decide, rfl⟩

/-- C5 (amended): planning never fails; `plan 0 m = (1, 0)` for every
`m`, and an upload of an empty object passes planning and the
signing-response checks, issues the signing request, and only then fails
with the unexpected-EOF error for part 1. -/
theorem C5_empty_file_eof (m : Nat) (env : Env)
    (hk : truthyOpt env.bucketKey = true) (hf : env.fileExists = true)
    (hd : env.fileData = []) (hs : env.signStatus = 200)
    (hu : truthyOpt env.uploadKey = true) (hl : env.urls.length = 1) :
    plan 0 m = (1, 0) ∧
    uploadFileWith m env =
      (Except.error (UploadErr.unexpectedEOF 1), [Event.signReq 1 1]) := by
  have hplan : plan 0 m = (1, 0) := by
    unfold plan
    rw [if_pos (Nat.zero_le m)]
  refine ⟨hplan, ?_⟩
  unfold uploadFileWith
  rw [hd]
  simp only [List.length_nil, hplan]
  rw [if_neg (by rw [hk]; simp), if_neg (by rw [hf]; simp),
    if_neg (by rw [hs]; simp), if_neg (by rw [hu, hl]; simp)]
  rfl

/-- C5 witness for the amended claim: the concrete empty-file store. -/
theorem C5_empty_file_eof_witness :
    plan 0 5 = (1, 0) ∧
    uploadFileWith 5 emptyFileEnv =
      (Except.error (UploadErr.unexpectedEOF 1), [Event.signReq 1 1]) :=
  C5_empty_file_eof 5 emptyFileEnv (by decide) (by decide) (by decide)
    (by decide) (by decide) (by decide)

/-- C7: a single part upload succeeds exactly when the PUT status lies in
{200, 201} and the ETag header lookup is truthy; a non-success status
yields the error carrying status and body, and a success status without
a token yields the distinct missing-ETag error. -/
theorem C7_part_success_iff (pn : Nat) (resp : PutResp) :
    ((∃ entry, uploadPart pn resp = Except.ok entry) ↔
      ((resp.status = 200 ∨ resp.status = 201) ∧
        truthyOpt (pyOr resp.etagUpper resp.etagLower) = true)) ∧
    (¬(resp.status = 200 ∨ resp.status = 201) →
      uploadPart pn resp =
        Except.error (UploadErr.putFailed pn resp.status resp.body)) ∧
    ((resp.status = 200 ∨ resp.status = 201) →
      truthyOpt (pyOr resp.etagUpper resp.etagLower) = false →
      uploadPart pn resp = Except.error (UploadErr.missingETag pn)) := by
  unfold uploadPart
  by_cases hs : resp.status = 200 ∨ resp.status = 201
  · rw [if_pos hs]
    rcases hpy : pyOr resp.etagUpper resp.etagLower with _ | raw <;>
      dsimp only
    · refine ⟨?_, fun hc => absurd hs hc, fun _ _ => rfl⟩
      constructor
      · rintro ⟨entry, he⟩; cases he
      · rintro ⟨_, ht⟩; simp [truthyOpt] at ht
    · by_cases hr : (raw != "") = true
      · rw [if_pos hr]
        refine ⟨?_, fun hc => absurd hs hc, fun _ ht => ?_⟩
        · exact ⟨fun _ => ⟨hs, by simp [truthyOpt, hr]⟩,
            fun _ => ⟨⟨pn, stripChar quoteChar raw⟩, rfl⟩⟩
        · rw [show truthyOpt (some raw) = (raw != "") from rfl] at ht
          rw [hr] at ht
          cases ht
      · rw [if_neg hr]
        refine ⟨?_, fun hc => absurd hs hc, fun _ _ => rfl⟩
        constructor
        · rintro ⟨entry, he⟩; cases he
        · rintro ⟨_, ht⟩
          rw [show truthyOpt (some raw) = (raw != "") from rfl] at ht
          exact absurd ht hr
  · rw [if_neg hs]
    refine ⟨?_, fun _ => rfl, fun hc _ => absurd hc hs⟩
    constructor
    · rintro ⟨entry, he⟩; cases he
    · rintro ⟨hc, _⟩; exact absurd hc hs

/-- C7 witness: a failed PUT and a success status without a token. -/
theorem C7_part_success_iff_witness :
    uploadPart 1 ⟨500, "boom", none, none⟩ =
      Except.error (UploadErr.putFailed 1 500 "boom") ∧
    uploadPart 2 ⟨200, "", none, none⟩ =
      Except.error (UploadErr.missingETag 2) ∧
    (∃ entry, uploadPart 3 ⟨200, "", some "\"abc123\"", none⟩ =
      Except.ok entry) :=
  ⟨(C7_part_success_iff 1 ⟨500, "boom", none, none⟩).2.1 (by decide),
    (C7_part_success_iff 2 ⟨200, "", none, none⟩).2.2 (Or.inl rfl)
      (by decide),
    (C7_part_success_iff 3 ⟨200, "", some "\"abc123\"", none⟩).1.mpr
      ⟨Or.inl rfl, by decide⟩⟩

/-- C8 counterexample: bucket creation also accepts status 409 (bucket
already exists), so "exactly {200, 201}" is false for
`create_bucket_if_needed`. -/
theorem C8_counterexample :
    create_bucket_if_needed (some "bucket") ⟨409, "conflict"⟩ =
      Except.ok (409, "conflict") ∧ ¬((409 : Nat) = 200 ∨ (409 : Nat) = 201) :=
  ⟨rfl, by decide⟩

/-- C8 (amended): with a configured bucket key, `create_bucket_if_needed`
succeeds exactly for statuses in {200, 201, 409} (409 meaning the bucket
already exists) and `_complete_signed_upload` succeeds exactly for
statuses in {200, 201}; every other status fails. -/
theorem C8_success_statuses (bk : Option String) (key : String)
    (payload : List PartEntry) (resp : HttpResp)
    (hk : truthyOpt bk = true) :
    ((∃ v, create_bucket_if_needed bk resp = Except.ok v) ↔
      (resp.status = 200 ∨ resp.status = 201 ∨ resp.status = 409)) ∧
    ((∃ r, complete_signed_upload bk key payload resp = Except.ok r) ↔
      (resp.status = 200 ∨ resp.status = 201)) := by
  constructor
  · unfold create_bucket_if_needed
    rw [if_neg (by rw [hk]; simp)]
    by_cases hc : resp.status = 200 ∨ resp.status = 201 ∨ resp.status = 409
    · rw [if_pos hc]
      exact ⟨fun _ => hc, fun _ => ⟨(resp.status, resp.body), rfl⟩⟩
    · rw [if_neg hc]
      constructor
      · rintro ⟨v, hv⟩; cases hv
      · intro hcc; exact absurd hcc hc
  · unfold complete_signed_upload
    rw [if_neg (by rw [hk]; simp)]
    by_cases hc : resp.status = 200 ∨ resp.status = 201
    · rw [if_pos hc]
      exact ⟨fun _ => hc, fun _ => ⟨resp.body, rfl⟩⟩
    · rw [if_neg hc]
      constructor
      · rintro ⟨r, hr⟩; cases hr
      · intro hcc; exact absurd hcc hc

/-- C8 witness for the amended claim, at status 409. -/
theorem C8_success_statuses_witness :
    ((∃ v, create_bucket_if_needed (some "bucket") ⟨409, "x"⟩ =
      Except.ok v) ↔
      ((409 : Nat) = 200 ∨ (409 : Nat) = 201 ∨ (409 : Nat) = 409)) ∧
    ((∃ r, complete_signed_upload (some "bucket") "k" [] ⟨409, "x"⟩ =
      Except.ok r) ↔ ((409 : Nat) = 200 ∨ (409 : Nat) = 201)) :=
  C8_success_statuses (some "bucket") "k" [] ⟨409, "x"⟩ (by decide)

/-- The trace of the upload of `fail2Env`, stopping at the failed part. -/
def fail2Trace : List Event :=
  [Event.signReq 3 1,
    Event.putReq 1 "u1" [0, 1, 2, 3, 4],
    Event.putReq 2 "u2" [5, 6, 7, 8, 9]]

theorem complete_ok_receipt (bk : Option String) (key : String)
    (payload : List PartEntry) (resp : HttpResp) (r : String)
    (h : complete_signed_upload bk key payload resp = Except.ok r) :
    r = resp.body ∧ (resp.status = 200 ∨ resp.status = 201) := by
  unfold complete_signed_upload at h
  by_cases hk : truthyOpt bk = false
  · rw [if_pos hk] at h; cases h
  · rw [if_neg hk] at h
    by_cases hc : resp.status = 200 ∨ resp.status = 201
    · rw [if_pos hc] at h; cases h; exact ⟨rfl, hc⟩
    · rw [if_neg hc] at h; cases h

theorem complete_error_kind (bk : Option String) (key : String)
    (payload : List PartEntry) (resp : HttpResp) (e : UploadErr)
    (h : complete_signed_upload bk key payload resp = Except.error e) :
    partErrPart e = none := by
  unfold complete_signed_upload at h
  by_cases hk : truthyOpt bk = false
  · rw [if_pos hk] at h; cases h; rfl
  · rw [if_neg hk] at h
    by_cases hc : resp.status = 200 ∨ resp.status = 201
    · rw [if_pos hc] at h; cases h
    · rw [if_neg hc] at h; cases h; rfl

/-- C3: whenever the run fails with a part-stage error (empty read,
non-success PUT status, or missing ETag) attributed to part `j`, the
trace contains no completion call and no PUT for a part number beyond
`j` — the coordinator abandons the remaining parts. -/
theorem C3_first_failure_stops (m : Nat) (env : Env) (e : UploadErr)
    (evs : List Event) (j : Nat)
    (h : uploadFileWith m env = (Except.error e, evs))
    (hj : partErrPart e = some j) :
    (∀ ev ∈ evs, isCompleteEvent ev = false) ∧
    (∀ q u b, Event.putReq q u b ∈ evs → q ≤ j) := by
  unfold uploadFileWith at h
  by_cases hk : truthyOpt env.bucketKey = false
  · rw [if_pos hk] at h
    cases h
    simp [partErrPart] at hj
  · rw [if_neg hk] at h
    by_cases hf : env.fileExists = false
    · rw [if_pos hf] at h; cases h; simp [partErrPart] at hj
    · rw [if_neg hf] at h
      by_cases hs : env.signStatus ≠ 200
      · rw [if_pos hs] at h; cases h; simp [partErrPart] at hj
      · rw [if_neg hs] at h
        by_cases hpm : truthyOpt env.uploadKey = false ∨
            env.urls.length ≠ (plan env.fileData.length m).1
        · rw [if_pos hpm] at h; cases h; simp [partErrPart] at hj
        · rw [if_neg hpm] at h
          rcases hloop : uploadLoop env.put env.urls
              (plan env.fileData.length m).2 (plan env.fileData.length m).1
              1 env.fileData with ⟨lres, levs⟩
          rw [hloop] at h
          rcases lres with le | payload
          · dsimp only at h
            cases h
            obtain ⟨j2, hj1, hj2, hj3, hj4, hj5⟩ :=
              uploadLoop_error env.put env.urls _ _ _ _ _ _ hloop
            rw [hj] at hj3
            have hjj : j = j2 := Option.some.inj hj3
            refine ⟨?_, ?_⟩
            · intro ev hev
              rcases List.mem_cons.mp hev with hev | hev
              · rw [hev]; rfl
              · exact hj4 ev hev
            · intro q u b hb
              rcases List.mem_cons.mp hb with hb | hb
              · cases hb
              · have := hj5 q u b hb
                omega
          · dsimp only at h
            rcases hcomp : complete_signed_upload env.bucketKey
                (env.uploadKey.getD "") payload
                ⟨env.completeStatus, env.completeBody⟩ with ce | receipt <;>
              rw [hcomp] at h <;> dsimp only at h
            · cases h
              have := complete_error_kind env.bucketKey _ _ _ _ hcomp
              rw [hj] at this
              cases this
            · simp at h

/-- C3 witness: part 2 of 3 fails with status 500; the error names part
2, no later part is uploaded, and completion is never called. -/
theorem C3_first_failure_stops_witness :
    (∀ ev ∈ fail2Trace, isCompleteEvent ev = false) ∧
    (∀ q u b, Event.putReq q u b ∈ fail2Trace → q ≤ 2) :=
  C3_first_failure_stops 5 fail2Env (UploadErr.putFailed 2 500 "boom")
    fail2Trace 2 rfl rfl

/-- C2: every payload handed to the completion endpoint (in any run that
reaches it) lists the part numbers exactly `1, ..., part_count` in
ascending order — no gaps, duplicates or reordering — and a successful
run does reach completion. -/
theorem C2_completion_payload_exact (m : Nat) (env : Env)
    (res : Except UploadErr String) (evs : List Event)
    (h : uploadFileWith m env = (res, evs)) :
    (∀ key payload, Event.completeReq key payload ∈ evs →
      payload.map PartEntry.part =
        List.range' 1 (plan env.fileData.length m).1) ∧
    (∀ receipt, res = Except.ok receipt →
      ∃ key payload, Event.completeReq key payload ∈ evs) := by
  unfold uploadFileWith at h
  by_cases hk : truthyOpt env.bucketKey = false
  · rw [if_pos hk] at h
    cases h
    exact ⟨(by intro key payload hmem; cases hmem),
      (by intro receipt hr; cases hr)⟩
  · rw [if_neg hk] at h
    by_cases hf : env.fileExists = false
    · rw [if_pos hf] at h
      cases h
      exact ⟨(by intro key payload hmem; cases hmem),
        (by intro receipt hr; cases hr)⟩
    · rw [if_neg hf] at h
      by_cases hs : env.signStatus ≠ 200
      · rw [if_pos hs] at h
        cases h
        refine ⟨?_, (by intro receipt hr; cases hr)⟩
        intro key payload hmem
        rcases List.mem_cons.mp hmem with hmem | hmem
        · cases hmem
        · cases hmem
      · rw [if_neg hs] at h
        by_cases hpm : truthyOpt env.uploadKey = false ∨
            env.urls.length ≠ (plan env.fileData.length m).1
        · rw [if_pos hpm] at h
          cases h
          refine ⟨?_, (by intro receipt hr; cases hr)⟩
          intro key payload hmem
          rcases List.mem_cons.mp hmem with hmem | hmem
          · cases hmem
          · cases hmem
        · rw [if_neg hpm] at h
          rcases hloop : uploadLoop env.put env.urls
              (plan env.fileData.length m).2 (plan env.fileData.length m).1
              1 env.fileData with ⟨lres, levs⟩
          rw [hloop] at h
          rcases lres with le | payload0
          · dsimp only at h
            cases h
            obtain ⟨j2, hj1, hj2, hj3, hj4, hj5⟩ :=
              uploadLoop_error env.put env.urls _ _ _ _ _ _ hloop
            refine ⟨?_, (by intro receipt hr; cases hr)⟩
            intro key payload hmem
            rcases List.mem_cons.mp hmem with hmem | hmem
            · cases hmem
            · have := hj4 _ hmem
              simp [isCompleteEvent] at this
          · dsimp only at h
            obtain ⟨hm1, hm2, hm3⟩ :=
              uploadLoop_ok env.put env.urls _ _ _ _ _ _ hloop
            rcases hcomp : complete_signed_upload env.bucketKey
                (env.uploadKey.getD "") payload0
                ⟨env.completeStatus, env.completeBody⟩ with ce | receipt0 <;>
              rw [hcomp] at h <;> dsimp only at h <;> cases h
            · refine ⟨?_, (by intro receipt hr; cases hr)⟩
              intro key payload hmem
              rcases List.mem_cons.mp hmem with hmem | hmem
              · cases hmem
              · rcases List.mem_append.mp hmem with hmem | hmem
                · rw [hm2] at hmem
                  have := expectedPuts_no_complete env.urls _ _ _ _ _ hmem
                  simp [isCompleteEvent] at this
                · rcases List.mem_singleton.mp hmem with hmem
                  cases hmem
                  exact hm1
            · refine ⟨?_, ?_⟩
              · intro key payload hmem
                rcases List.mem_cons.mp hmem with hmem | hmem
                · cases hmem
                · rcases List.mem_append.mp hmem with hmem | hmem
                  · rw [hm2] at hmem
                    have := expectedPuts_no_complete env.urls _ _ _ _ _ hmem
                    simp [isCompleteEvent] at this
                  · rcases List.mem_singleton.mp hmem with hmem
                    cases hmem
                    exact hm1
              · intro receipt hr
                exact ⟨env.uploadKey.getD "", payload0, by simp⟩

/-- C2 witness: the successful 12-byte upload's completion payload. -/
theorem C2_completion_payload_exact_witness :
    (∀ key payload, Event.completeReq key payload ∈ okTrace →
      payload.map PartEntry.part =
        List.range' 1 (plan okEnv.fileData.length 5).1) ∧
    (∀ receipt, (Except.ok "receipt" : Except UploadErr String) =
        Except.ok receipt →
      ∃ key payload, Event.completeReq key payload ∈ okTrace) :=
  C2_completion_payload_exact 5 okEnv (Except.ok "receipt") okTrace rfl

/-- C6: in a successful run, every entry of the completion payload
stores the store-returned ETag with its surrounding quote characters
stripped (`etag.strip` with the quote char applied to the truthy header
value). -/
theorem C6_etag_quotes_stripped (m : Nat) (env : Env) (receipt : String)
    (evs : List Event)
    (h : uploadFileWith m env = (Except.ok receipt, evs)) :
    ∀ key payload, Event.completeReq key payload ∈ evs →
      ∀ en ∈ payload, ∃ raw,
        pyOr (env.put en.part).etagUpper (env.put en.part).etagLower =
          some raw ∧ raw ≠ "" ∧ en.etag = stripChar quoteChar raw := by
  unfold uploadFileWith at h
  by_cases hk : truthyOpt env.bucketKey = false
  · rw [if_pos hk] at h; cases h
  · rw [if_neg hk] at h
    by_cases hf : env.fileExists = false
    · rw [if_pos hf] at h; cases h
    · rw [if_neg hf] at h
      by_cases hs : env.signStatus ≠ 200
      · rw [if_pos hs] at h; cases h
      · rw [if_neg hs] at h
        by_cases hpm : truthyOpt env.uploadKey = false ∨
            env.urls.length ≠ (plan env.fileData.length m).1
        · rw [if_pos hpm] at h; cases h
        · rw [if_neg hpm] at h
          rcases hloop : uploadLoop env.put env.urls
              (plan env.fileData.length m).2 (plan env.fileData.length m).1
              1 env.fileData with ⟨lres, levs⟩
          rw [hloop] at h
          rcases lres with le | payload0
          · dsimp only at h; cases h
          · dsimp only at h
            obtain ⟨hm1, hm2, hm3⟩ :=
              uploadLoop_ok env.put env.urls _ _ _ _ _ _ hloop
            rcases hcomp : complete_signed_upload env.bucketKey
                (env.uploadKey.getD "") payload0
                ⟨env.completeStatus, env.completeBody⟩ with ce | receipt0 <;>
              rw [hcomp] at h <;> dsimp only at h <;> cases h
            intro key payload hmem
            rcases List.mem_cons.mp hmem with hmem | hmem
            · cases hmem
            · rcases List.mem_append.mp hmem with hmem | hmem
              · rw [hm2] at hmem
                have := expectedPuts_no_complete env.urls _ _ _ _ _ hmem
                simp [isCompleteEvent] at this
              · rcases List.mem_singleton.mp hmem with hmem
                cases hmem
                intro en hen
                exact uploadPart_ok_etag en.part (env.put en.part) en
                  (hm3 en hen)

/-- C6 witness: the quoted mocked ETag of `okEnv` is stored unquoted in
the part result of part 1. -/
theorem C6_etag_quotes_stripped_witness :
    ∃ raw,
      pyOr (okEnv.put 1).etagUpper (okEnv.put 1).etagLower = some raw ∧
      raw ≠ "" ∧ (⟨1, "e"⟩ : PartEntry).etag = stripChar quoteChar raw :=
  C6_etag_quotes_stripped 5 okEnv "receipt" okTrace rfl "key"
    [⟨1, "e"⟩, ⟨2, "e"⟩, ⟨3, "e"⟩] (by decide) ⟨1, "e"⟩ (by decide)

/-- C9: a successful run issues exactly one signing request for
`part_count` targets with `firstPart = 1`, then the `part_count` part
PUTs in strictly ascending part-number order — the body of the PUT for
part `i + 1` being exactly bytes `[i * part_size, (i+1) * part_size)` of
the file (clipped at the end) — then exactly one completion call, and
the store's completion receipt is returned unchanged. -/
theorem C9_success_trace (m : Nat) (env : Env) (receipt : String)
    (evs : List Event)
    (h : uploadFileWith m env = (Except.ok receipt, evs)) :
    ∃ payload,
      evs = Event.signReq (plan env.fileData.length m).1 1 ::
        (expectedPuts env.urls (plan env.fileData.length m).2
            (plan env.fileData.length m).1 1 env.fileData ++
          [Event.completeReq (env.uploadKey.getD "") payload]) ∧
      payload.map PartEntry.part =
        List.range' 1 (plan env.fileData.length m).1 ∧
      receipt = env.completeBody ∧
      (∀ i, i < (plan env.fileData.length m).1 →
        (expectedPuts env.urls (plan env.fileData.length m).2
            (plan env.fileData.length m).1 1 env.fileData)[i]? =
          some (Event.putReq (i + 1) (env.urls.getD i "")
            ((env.fileData.drop
              (i * (plan env.fileData.length m).2)).take
              (plan env.fileData.length m).2))) := by
  unfold uploadFileWith at h
  by_cases hk : truthyOpt env.bucketKey = false
  · rw [if_pos hk] at h; cases h
  · rw [if_neg hk] at h
    by_cases hf : env.fileExists = false
    · rw [if_pos hf] at h; cases h
    · rw [if_neg hf] at h
      by_cases hs : env.signStatus ≠ 200
      · rw [if_pos hs] at h; cases h
      · rw [if_neg hs] at h
        by_cases hpm : truthyOpt env.uploadKey = false ∨
            env.urls.length ≠ (plan env.fileData.length m).1
        · rw [if_pos hpm] at h; cases h
        · rw [if_neg hpm] at h
          rcases hloop : uploadLoop env.put env.urls
              (plan env.fileData.length m).2 (plan env.fileData.length m).1
              1 env.fileData with ⟨lres, levs⟩
          rw [hloop] at h
          rcases lres with le | payload0
          · dsimp only at h; cases h
          · dsimp only at h
            obtain ⟨hm1, hm2, hm3⟩ :=
              uploadLoop_ok env.put env.urls _ _ _ _ _ _ hloop
            rcases hcomp : complete_signed_upload env.bucketKey
                (env.uploadKey.getD "") payload0
                ⟨env.completeStatus, env.completeBody⟩ with ce | receipt0 <;>
              rw [hcomp] at h <;> dsimp only at h <;> cases h
            refine ⟨payload0, ?_, hm1, ?_, ?_⟩
            · rw [hm2]
            · exact (complete_ok_receipt env.bucketKey _ _ _ _ hcomp).1
            · intro i hi
              rw [expectedPuts_getElem? env.urls
                (plan env.fileData.length m).2
                (plan env.fileData.length m).1 i 1 env.fileData hi]
              rw [show 1 + i = i + 1 from by omega,
                show i + 1 - 1 = i from by omega]

/-- C9 witness: the full trace of the successful 12-byte upload. -/
theorem C9_success_trace_witness :
    ∃ payload,
      okTrace = Event.signReq (plan okEnv.fileData.length 5).1 1 ::
        (expectedPuts okEnv.urls (plan okEnv.fileData.length 5).2
            (plan okEnv.fileData.length 5).1 1 okEnv.fileData ++
          [Event.completeReq (okEnv.uploadKey.getD "") payload]) ∧
      payload.map PartEntry.part =
        List.range' 1 (plan okEnv.fileData.length 5).1 ∧
      "receipt" = okEnv.completeBody ∧
      (∀ i, i < (plan okEnv.fileData.length 5).1 →
        (expectedPuts okEnv.urls (plan okEnv.fileData.length 5).2
            (plan okEnv.fileData.length 5).1 1 okEnv.fileData)[i]? =
          some (Event.putReq (i + 1) (okEnv.urls.getD i "")
            ((okEnv.fileData.drop
              (i * (plan okEnv.fileData.length 5).2)).take
              (plan okEnv.fileData.length 5).2))) :=
  C9_success_trace 5 okEnv "receipt" okTrace rfl

end Aps
